import Mathlib

/-!
Verification of the anonymous_vote polling application (src/app.py) against its
natural-language specification.  The application keeps all persistent state in a
remote table store (three tables: votes, options, responses) reached over REST;
we embed that store as an explicit state `DB` and every data-access function of
app.py as a pure Lean function over `DB`.  Each HTTP call's success or failure
is an explicit boolean parameter (the remote store is external to the repo, so
only the status-code branching visible in app.py is modelled).
-/

namespace AnonymousVote

/-- A row of the Votes table: the remote-assigned row id, the random public
identifier (uuid), the question text, the selection limit and the creation
timestamp, exactly the fields posted by create_vote in app.py. -/
structure Vote where
  id : Nat
  uuid : String
  question : String
  max_selections : Nat
  created_at : String
  deriving DecidableEq, Repr

/-- A row of the Options table: row id, parent vote's row id (the value app.py's
create_option writes into the vote field), display text and running count. -/
structure OptionRow where
  id : Nat
  vote : Nat
  option_text : String
  count : Nat
  deriving DecidableEq, Repr

/-- A row of the Responses table: row id, the vote identifier string that
submit_vote posts (the public uuid carried by the page's query parameter), the
selected option ids (app.py serialises this list with json.dumps; the
serialisation is injective on lists of ids so we keep the list itself), and the
submission timestamp. -/
structure ResponseRow where
  id : Nat
  vote : String
  selected_options : List Nat
  submitted_at : String
  deriving DecidableEq, Repr

/-- The remote table store.  Modelled from the spec: the store is an external
collaborator ("treated as an opaque remote data store reachable via REST") that
assigns fresh row identifiers on creation; nextId is the next identifier it
hands out. -/
structure DB where
  votes : List Vote
  options : List OptionRow
  responses : List ResponseRow
  nextId : Nat
  deriving DecidableEq, Repr

/-- The empty store the application starts from. -/
def initDB : DB := ⟨[], [], [], 1⟩

/-- Result of a list endpoint call: the rows returned, the st.error messages
emitted, and how many HTTP requests were issued. -/
structure Fetch (α : Type) where
  results : List α
  errors : List String
  requests : Nat
  deriving DecidableEq, Repr

/-- Result of a row-creation call: the store afterwards, the created row (None
on failure, like app.py returning None), errors and request count. -/
structure CreateOutcome (α : Type) where
  db : DB
  created : Option α
  errors : List String
  requests : Nat
  deriving DecidableEq, Repr

def msg_fetch_votes_failed : String := "Failed to fetch votes"
def msg_fetch_options_failed : String := "Failed to fetch options"
def msg_fetch_responses_failed : String := "Failed to fetch responses"
def msg_create_vote_failed : String := "Failed to create vote"
def msg_create_option_failed : String := "Failed to create option"
def msg_submit_failed : String := "Failed to submit vote"
def msg_vote_not_found : String := "Vote not found"
def warn_select_one : String := "Please select at least one option"

/-- The warning of app.py lines 225 and 233, without the f-string interpolation
syntax. -/
def warn_at_most (n : Nat) : String :=
  "You can select at most " ++ toString n ++ " options"

/-- get_all_votes (app.py lines 41-51): one GET; on status 200 the results
array, otherwise an st.error and the empty list. -/
def get_all_votes (db : DB) (ok : Bool) : Fetch Vote :=
  if ok then ⟨db.votes, [], 1⟩ else ⟨[], [msg_fetch_votes_failed], 1⟩

/-- The lookup key passed to get_vote_by_id.  In Python it is either a numeric
row id or a uuid string; equality between an int and a str is always False, so
the two cases never cross. -/
def VoteKey : Type := Nat ⊕ String

/-- The match condition of app.py line 57: vote id equals the key or vote uuid
equals the key (cross-type comparisons are False in Python). -/
def vote_matches (k : VoteKey) (v : Vote) : Bool :=
  match k with
  | Sum.inl n => v.id == n
  | Sum.inr s => v.uuid == s

/-- get_vote_by_id (app.py lines 53-59): fetch all votes and return the first
row matching the key, None otherwise. -/
def get_vote_by_id (db : DB) (ok : Bool) (k : VoteKey) : Option Vote :=
  (get_all_votes db ok).results.find? (fun v => vote_matches k v)

/-- Modelled from the spec: the equality filter on the foreign-key column of
the external store ("all options where their parent-poll column equals a given
poll identifier", section 6).  app.py passes the poll's public uuid as the
filter value while option rows store the poll's numeric row id, so the store is
modelled as resolving the identifier: an option matches when some vote row has
this uuid and the option's vote field holds that row's id. -/
def option_belongs (db : DB) (vote_uuid : String) (o : OptionRow) : Bool :=
  db.votes.any (fun v => v.uuid == vote_uuid && v.id == o.vote)

/-- get_options_for_vote (app.py lines 61-75): one filtered GET; on 200 the
matching rows, otherwise an st.error and the empty list. -/
def get_options_for_vote (db : DB) (ok : Bool) (vote_uuid : String) :
    Fetch OptionRow :=
  if ok then ⟨db.options.filter (fun o => option_belongs db vote_uuid o), [], 1⟩
  else ⟨[], [msg_fetch_options_failed], 1⟩

/-- get_responses_for_vote (app.py lines 77-91): one filtered GET over the
Responses table; response rows store the uuid string directly. -/
def get_responses_for_vote (db : DB) (ok : Bool) (vote_uuid : String) :
    Fetch ResponseRow :=
  if ok then ⟨db.responses.filter (fun r => r.vote == vote_uuid), [], 1⟩
  else ⟨[], [msg_fetch_responses_failed], 1⟩

/-- create_vote (app.py lines 93-113): one POST of question, max_selections,
created_at and a freshly generated uuid; on 200 the created row, otherwise an
st.error and None.  The uuid4 value is a parameter. -/
def create_vote (db : DB) (ok : Bool) (new_uuid : String) (question : String)
    (max_selections : Nat) (now : String) : CreateOutcome Vote :=
  let v : Vote := ⟨db.nextId, new_uuid, question, max_selections, now⟩
  if ok then
    ⟨{ db with votes := db.votes ++ [v], nextId := db.nextId + 1 }, some v, [], 1⟩
  else ⟨db, none, [msg_create_vote_failed], 1⟩

/-- create_option (app.py lines 115-133): one POST of the parent vote id, the
option text and count 0; on 200 the created row, otherwise st.error and None. -/
def create_option (db : DB) (ok : Bool) (vote_id : Nat) (option_text : String) :
    CreateOutcome OptionRow :=
  let o : OptionRow := ⟨db.nextId, vote_id, option_text, 0⟩
  if ok then
    ⟨{ db with options := db.options ++ [o], nextId := db.nextId + 1 }, some o, [], 1⟩
  else ⟨db, none, [msg_create_option_failed], 1⟩

/-- Outcome of submit_vote: the store afterwards, the boolean the function
returns, the option ids for which a PATCH count-increment request was issued,
and the st.error messages emitted (in emission order). -/
structure SubmitOutcome where
  db : DB
  result : Bool
  patchCalls : List Nat
  errors : List String
  deriving DecidableEq, Repr

/-- The stored options after a successful PATCH setting the count of the row
with a given id (app.py lines 154-161); all other fields and rows unchanged. -/
def patch_count (l : List OptionRow) (oid c : Nat) : List OptionRow :=
  l.map (fun p => if p.id == oid then { p with count := c } else p)

/-- The per-option loop of submit_vote (app.py lines 151-161): for each selected
option id, re-fetch the poll's options (one GET per iteration, whose success is
fetchOk of the iteration index), scan for the first row with that id, and if one
is found issue a PATCH setting its count to the fetched count plus one.  The
PATCH's own status (patchOk) is never inspected by app.py; on a non-success
PATCH the store is unchanged.  Ids finding no row are skipped silently. -/
def increment_loop (db : DB) (vote_uuid : String) (sel : List Nat)
    (fetchOk patchOk : Nat → Bool) (i : Nat) : DB × List Nat × List String :=
  match sel with
  | [] => (db, [], [])
  | oid :: rest =>
    let fetched := get_options_for_vote db (fetchOk i) vote_uuid
    match fetched.results.find? (fun o => o.id == oid) with
    | none =>
      let out := increment_loop db vote_uuid rest fetchOk patchOk (i + 1)
      (out.1, out.2.1, fetched.errors ++ out.2.2)
    | some o =>
      let db2 :=
        if patchOk i then { db with options := patch_count db.options oid (o.count + 1) }
        else db
      let out := increment_loop db2 vote_uuid rest fetchOk patchOk (i + 1)
      (out.1, oid :: out.2.1, fetched.errors ++ out.2.2)

/-- submit_vote (app.py lines 135-167): POST the response row first (respOk is
its HTTP status), then run the count-increment loop unconditionally, and only
afterwards branch on the stored status of the POST to return True or False. -/
def submit_vote (db : DB) (respOk : Bool) (fetchOk patchOk : Nat → Bool)
    (vote_id : String) (selected_options : List Nat) (now : String) :
    SubmitOutcome :=
  let r : ResponseRow := ⟨db.nextId, vote_id, selected_options, now⟩
  let db1 :=
    if respOk then
      { db with responses := db.responses ++ [r], nextId := db.nextId + 1 }
    else db
  let loopOut := increment_loop db1 vote_id selected_options fetchOk patchOk 0
  if respOk then ⟨loopOut.1, true, loopOut.2.1, loopOut.2.2⟩
  else ⟨loopOut.1, false, loopOut.2.1, loopOut.2.2 ++ [msg_submit_failed]⟩

/-- The option collection of render_create_vote_modal (app.py lines 180-184):
of the ten text inputs only the truthy (non-empty) ones are kept, in order. -/
def collect_options (raw : List String) : List String :=
  raw.filter (fun s => !(s == ""))

/-- The option-creation loop of render_create_vote_modal (app.py lines
192-194): one create_option call per non-empty collected text, sequentially;
optOk gives each call's HTTP status. -/
def create_options_loop (db : DB) (vote_id : Nat) (texts : List String)
    (optOk : Nat → Bool) (i : Nat) : DB :=
  match texts with
  | [] => db
  | t :: rest =>
    if !(t == "") then
      create_options_loop (create_option db (optOk i) vote_id t).db vote_id rest
        optOk (i + 1)
    else create_options_loop db vote_id rest optOk (i + 1)

/-- The submit branch of render_create_vote_modal (app.py lines 186-196):
creation proceeds only when the question is truthy and at least two non-empty
options were collected; then the vote row is created and, if that succeeded,
one option row per collected text.  The boolean reports whether the vote row
was created. -/
def render_create_submit (db : DB) (new_uuid : String) (question : String)
    (max_selections : Nat) (raw : List String) (voteOk : Bool)
    (optOk : Nat → Bool) (now : String) : DB × Bool :=
  let options := collect_options raw
  if question = "" then (db, false)
  else if options.length < 2 then (db, false)
  else
    let cv := create_vote db voteOk new_uuid question max_selections now
    match cv.created with
    | some v => (create_options_loop cv.db v.id options optOk 0, true)
    | none => (cv.db, false)

/-- The selection widgets of display_vote_page (app.py lines 211-221).  When
max_selections is 1 a radio over the option indices yields exactly one id (an
out-of-range index models the crash on an empty option list: st.radio returns
None and indexing raises, so no submission happens).  Otherwise one checkbox
per option, keyed by option id, yields the ids of the checked options in
display order. -/
def ui_selected (vote : Vote) (opts : List OptionRow) (radioIdx : Nat)
    (checked : Nat → Bool) : Option (List Nat) :=
  if vote.max_selections == 1 then
    if h : radioIdx < opts.length then some [(opts.get ⟨radioIdx, h⟩).id]
    else none
  else some ((opts.filter (fun o => checked o.id)).map (fun o => o.id))

/-- Outcome of a vote-page form submission: the store afterwards, the
st.warning messages, the st.error messages, and whether submit_vote reported
success. -/
structure PageOutcome where
  db : DB
  warnings : List String
  errors : List String
  success : Bool
  deriving DecidableEq, Repr

/-- The submit handler of display_vote_page (app.py lines 198-238): resolve the
query-parameter key to a vote (error and stop when none matches), read the
selection from the form widgets, then validate — warn and record nothing when
no option is selected, warn and record nothing when the selection exceeds
max_selections, otherwise call submit_vote. -/
def display_page_submit (db : DB) (key : String) (okVotes okOpts : Bool)
    (radioIdx : Nat) (checked : Nat → Bool) (respOk : Bool)
    (fetchOk patchOk : Nat → Bool) (now : String) : PageOutcome :=
  match get_vote_by_id db okVotes (Sum.inr key) with
  | none => ⟨db, [], [msg_vote_not_found], false⟩
  | some vote =>
    let opts := (get_options_for_vote db okOpts key).results
    match ui_selected vote opts radioIdx checked with
    | none => ⟨db, [], [], false⟩
    | some sel =>
      if sel.length = 0 then ⟨db, [warn_select_one], [], false⟩
      else if vote.max_selections < sel.length then
        ⟨db, [warn_at_most vote.max_selections], [], false⟩
      else
        let out := submit_vote db respOk fetchOk patchOk key sel now
        ⟨out.db, [], out.errors, out.result⟩

/-- The tally denominator of display_vote_page line 243: the sum of the
fetched options' counts. -/
def total_votes (opts : List OptionRow) : Nat :=
  (opts.map (fun o => o.count)).sum

/-- The percentage computation of display_vote_page lines 246-248: zero when
the total is zero, otherwise count over total times one hundred (app.py uses
float division; we compute the same value exactly in the rationals). -/
def percentage_of (total : Nat) (count : Nat) : ℚ :=
  if 0 < total then ((count : ℚ) / (total : ℚ)) * 100 else 0

/-- One row of the displayed results table (app.py lines 250-254). -/
structure ResultRow where
  option_text : String
  votes : Nat
  percentage : ℚ
  deriving DecidableEq, Repr

/-- The results table of display_vote_page lines 242-254: one row per option
with its text, count and percentage. -/
def results_data (opts : List OptionRow) : List ResultRow :=
  opts.map (fun o => ⟨o.option_text, o.count, percentage_of (total_votes opts) o.count⟩)

def kEnvUrl : String := "BASEROW_API_URL"
def kEnvToken : String := "BASEROW_API_TOKEN"
def kSecretsUrl : String := "baserow_api_url"
def kSecretsToken : String := "baserow_api_token"
def kVotesId : String := "votes_table_id"
def kOptionsId : String := "options_table_id"
def kResponsesId : String := "responses_table_id"
def defaultUrl : String := "https://api.baserow.io/api/database/rows/table/"

/-- The configuration load of app.py line 28-30: the base URL comes from the
environment when set, else from the secrets file, else a built-in default. -/
def BASEROW_API_URL (env secretsMap : String → Option String) : String :=
  (env kEnvUrl).getD ((secretsMap kSecretsUrl).getD defaultUrl)

/-- app.py line 31: the token is read from st.secrets only (a missing key
raises, hence the Option). -/
def BASEROW_API_TOKEN (_env secretsMap : String → Option String) : Option String :=
  secretsMap kSecretsToken

/-- app.py line 32: the votes table id is read from st.secrets only. -/
def VOTES_TABLE_ID (_env secretsMap : String → Option String) : Option String :=
  secretsMap kVotesId

/-- app.py line 33: the options table id is read from st.secrets only. -/
def OPTIONS_TABLE_ID (_env secretsMap : String → Option String) : Option String :=
  secretsMap kOptionsId

/-- app.py line 34: the responses table id is read from st.secrets only. -/
def RESPONSES_TABLE_ID (_env secretsMap : String → Option String) : Option String :=
  secretsMap kResponsesId

/-- Whether the increment loop finds a row for a given selected id: some option
row carries that id and belongs to the poll. -/
def found_pred (db : DB) (u : String) (oid : Nat) : Bool :=
  db.options.any (fun o => o.id == oid && option_belongs db u o)

/-- The whole store after a successful count PATCH. -/
def dbPatch (db : DB) (oid c : Nat) : DB :=
  { db with options := patch_count db.options oid c }

/-- The options table after one accepted submission: every selected option row
belonging to the poll has its count raised by one, all other rows unchanged. -/
def bump_selected (db : DB) (u : String) (sel : List Nat) : List OptionRow :=
  db.options.map
    (fun o => if o.id ∈ sel ∧ option_belongs db u o = true
              then { o with count := o.count + 1 } else o)

/-- The response row recorded by submit_vote for a given store state. -/
def respRow (db : DB) (u : String) (sel : List Nat) (now : String) : ResponseRow :=
  ⟨db.nextId, u, sel, now⟩

/-- The store right after the response POST of submit_vote succeeded. -/
def dbResp (db : DB) (u : String) (sel : List Nat) (now : String) : DB :=
  { db with
    responses := db.responses ++ [respRow db u sel now]
    nextId := db.nextId + 1 }

/-- The option rows created by a fully successful creation loop: consecutive
fresh ids from startId, all under the given vote, all with count 0. -/
def fresh_options (vote_id startId : Nat) (texts : List String) : List OptionRow :=
  match texts with
  | [] => []
  | t :: rest => ⟨startId, vote_id, t, 0⟩ :: fresh_options vote_id (startId + 1) rest

/-- The state invariant maintained by the application's operations: remote ids
are below the store's counter, uuids and option ids are unique, every poll's
selection limit is at least one (the creation form's number input has minimum
value 1), every response points at an existing poll, and every response for a
poll selects distinct existing options of that poll, at least one and at most
the poll's limit. -/
def Inv (db : DB) : Prop :=
  (∀ v ∈ db.votes, v.id < db.nextId) ∧
  (∀ o ∈ db.options, o.id < db.nextId) ∧
  (db.votes.map (fun v => v.uuid)).Nodup ∧
  (db.options.map (fun o => o.id)).Nodup ∧
  (∀ v ∈ db.votes, 1 ≤ v.max_selections) ∧
  (∀ r ∈ db.responses, ∃ v ∈ db.votes, v.uuid = r.vote) ∧
  (∀ v ∈ db.votes, ∀ r ∈ db.responses, r.vote = v.uuid →
    r.selected_options.Nodup ∧ 1 ≤ r.selected_options.length ∧
    r.selected_options.length ≤ v.max_selections ∧
    ∀ oid ∈ r.selected_options, ∃ o ∈ db.options, o.vote = v.id ∧ o.id = oid)

/-- One user-visible operation of the application: submitting the creation form
(with a fresh uuid4 value and the number input's minimum of 1 enforced by the
widget), or submitting the voting form of the page reached through a shareable
link, with arbitrary HTTP outcomes. -/
inductive Step : DB → DB → Prop
  | create (db : DB) (u q : String) (maxSel : Nat) (raw : List String)
      (voteOk : Bool) (optOk : Nat → Bool) (now : String)
      (hmax : 1 ≤ maxSel) (hu : ∀ v ∈ db.votes, v.uuid ≠ u) :
      Step db (render_create_submit db u q maxSel raw voteOk optOk now).1
  | vote (db : DB) (key : String) (okV okO : Bool) (radioIdx : Nat)
      (checked : Nat → Bool) (respOk : Bool) (fOk pOk : Nat → Bool) (now : String) :
      Step db (display_page_submit db key okV okO radioIdx checked respOk fOk pOk now).db

/-- The stores reachable from the empty store by the application's create-poll
and submit-vote operations. -/
inductive Reachable : DB → Prop
  | init : Reachable initDB
  | step (db db' : DB) : Reachable db → Step db db' → Reachable db'

/-- Concrete demonstration data used by the witness theorems. -/
def uDemo : String := "uuid-demo-1"
def qLunch : String := "Lunch?"
def sPizza : String := "Pizza"
def sTacos : String := "Tacos"
def tDemo : String := "2024-01-01T00:00:00"
def urlDemo : String := "https://example.test/api/"
def tokEnvDemo : String := "token-from-env"
def tokSecretsDemo : String := "token-from-secrets"

/-- A store holding one single-select poll with two options and no responses. -/
def dbDemo : DB :=
  ⟨[⟨1, uDemo, qLunch, 1, tDemo⟩], [⟨2, 1, sPizza, 0⟩, ⟨3, 1, sTacos, 0⟩], [], 4⟩

/-- The two demo options alone, Pizza with one vote. -/
def optsDemo : List OptionRow := [⟨2, 1, sPizza, 1⟩, ⟨3, 1, sTacos, 0⟩]

/-- An environment that sets the access-token variable only. -/
def envDemo : String → Option String :=
  fun k => if k == kEnvToken then some tokEnvDemo else none

/-- An environment that sets the base-URL variable only. -/
def envUrlDemo : String → Option String :=
  fun k => if k == kEnvUrl then some urlDemo else none

/-- A secrets file holding an access token only. -/
def secretsDemo : String → Option String :=
  fun k => if k == kSecretsToken then some tokSecretsDemo else none

/-! Helper lemmas about the embedded operations. -/

/-- Searching an appended list skips a prefix on which the predicate fails. -/
lemma find?_append_of_forall_false {α : Type} (p : α → Bool) (l₁ l₂ : List α)
    (h : ∀ a ∈ l₁, p a = false) : (l₁ ++ l₂).find? p = l₂.find? p := by
  induction l₁ with
  | nil => simp
  | cons a t ih =>
    have ha := h a (by simp)
    simp only [List.cons_append, List.find?_cons, ha, cond_false]
    exact ih (fun x hx => h x (by simp [hx]))

/-- option_belongs reads only the votes table and the row's own vote field. -/
lemma option_belongs_congr (db db' : DB) (u : String) (o : OptionRow)
    (hv : db'.votes = db.votes) :
    option_belongs db' u o = option_belongs db u o := by
  simp [option_belongs, hv]

/-- any over a mapped list is any of the composed predicate. -/
lemma any_map_fun {α β : Type} (l : List α) (f : α → β) (p : β → Bool) :
    (l.map f).any p = l.any (fun a => p (f a)) := by
  induction l with
  | nil => rfl
  | cons a t ih => simp [ih]

/-- found_pred is determined by the votes table and the options' id and vote
fields. -/
lemma found_pred_congr (db db' : DB) (u : String)
    (hv : db'.votes = db.votes)
    (ho : db'.options.map (fun o => (o.id, o.vote)) =
      db.options.map (fun o => (o.id, o.vote)))
    (oid : Nat) : found_pred db' u oid = found_pred db u oid := by
  have h1 : found_pred db' u oid = (db'.options.map (fun o => (o.id, o.vote))).any
      (fun pr => pr.1 == oid && db'.votes.any (fun v => v.uuid == u && v.id == pr.2)) := by
    rw [any_map_fun]
    rfl
  have h2 : found_pred db u oid = (db.options.map (fun o => (o.id, o.vote))).any
      (fun pr => pr.1 == oid && db.votes.any (fun v => v.uuid == u && v.id == pr.2)) := by
    rw [any_map_fun]
    rfl
  rw [h1, h2, ho, hv]

/-- Projecting the id-vote pairs out of the id-vote-text triples. -/
lemma pairs_of_triples {l l' : List OptionRow}
    (h : l'.map (fun o => (o.id, o.vote, o.option_text)) =
      l.map (fun o => (o.id, o.vote, o.option_text))) :
    l'.map (fun o => (o.id, o.vote)) = l.map (fun o => (o.id, o.vote)) := by
  have h2 := congrArg (List.map (fun tr : Nat × Nat × String => (tr.1, tr.2.1))) h
  simpa [List.map_map, Function.comp] using h2

/-- Projecting the ids out of the id-vote-text triples. -/
lemma ids_of_triples {l l' : List OptionRow}
    (h : l'.map (fun o => (o.id, o.vote, o.option_text)) =
      l.map (fun o => (o.id, o.vote, o.option_text))) :
    l'.map (fun o => o.id) = l.map (fun o => o.id) := by
  have h2 := congrArg (List.map (fun tr : Nat × Nat × String => tr.1)) h
  simpa [List.map_map, Function.comp] using h2

/-- A count PATCH preserves every option row's id, vote and text. -/
lemma patch_map_triples (l : List OptionRow) (oid c : Nat) :
    (patch_count l oid c).map (fun o => (o.id, o.vote, o.option_text)) =
      l.map (fun o => (o.id, o.vote, o.option_text)) := by
  rw [patch_count, List.map_map]
  apply List.map_congr_left
  intro p _
  by_cases hid : (p.id == oid) = true <;> simp [Function.comp, hid]

/-- The increment loop never touches the votes table, the responses table or
the id counter, and changes only the count fields of option rows, whatever the
success pattern of its HTTP calls. -/
lemma increment_loop_shape (u : String) (sel : List Nat) (fOk pOk : Nat → Bool) :
    ∀ (db : DB) (i : Nat),
      (increment_loop db u sel fOk pOk i).1.votes = db.votes ∧
      (increment_loop db u sel fOk pOk i).1.responses = db.responses ∧
      (increment_loop db u sel fOk pOk i).1.nextId = db.nextId ∧
      (increment_loop db u sel fOk pOk i).1.options.map
          (fun o => (o.id, o.vote, o.option_text)) =
        db.options.map (fun o => (o.id, o.vote, o.option_text)) := by
  induction sel with
  | nil => intro db i; simp [increment_loop]
  | cons oid rest ih =>
    intro db i
    simp only [increment_loop]
    cases hf : (get_options_for_vote db (fOk i) u).results.find? (fun o => o.id == oid) with
    | none => simpa using ih db (i + 1)
    | some o =>
      simp only
      cases hp : pOk i with
      | false => simpa using ih db (i + 1)
      | true =>
        simp only [if_pos rfl, if_true]
        have hbtr := patch_map_triples db.options oid (o.count + 1)
        have ih2 := ih { db with options := patch_count db.options oid (o.count + 1) } (i + 1)
        refine ⟨by simpa using ih2.1, by simpa using ih2.2.1,
          by simpa using ih2.2.2.1, ?_⟩
        have h4 := ih2.2.2.2
        simpa [hbtr] using h4

/-- When the find of the increment loop comes back empty, no option row of the
poll carries the selected id. -/
lemma found_pred_false_of_find?_none (db : DB) (u : String) (oid : Nat)
    (h : (db.options.filter (fun o => option_belongs db u o)).find?
      (fun o => o.id == oid) = none) :
    found_pred db u oid = false := by
  rw [List.find?_eq_none] at h
  rw [found_pred, List.any_eq_false]
  intro o ho hcontra
  have h1 : (o.id == oid) = true := by
    cases h2 : (o.id == oid) <;> simp [h2] at hcontra ⊢
  have h2 : option_belongs db u o = true := by
    cases h3 : option_belongs db u o <;> simp [h1, h3] at hcontra ⊢
  exact h o (List.mem_filter.mpr ⟨ho, h2⟩) h1

/-- When the find of the increment loop returns a row, that row is an option of
the store, belongs to the poll, and carries the selected id. -/
lemma of_find?_filter_some (db : DB) (u : String) (oid : Nat) (o : OptionRow)
    (h : (db.options.filter (fun o => option_belongs db u o)).find?
      (fun o => o.id == oid) = some o) :
    o ∈ db.options ∧ option_belongs db u o = true ∧ o.id = oid := by
  have hmem := List.mem_of_find?_eq_some h
  have hp := List.find?_some h
  rw [List.mem_filter] at hmem
  exact ⟨hmem.1, hmem.2, by simpa using hp⟩

/-- A poll option carrying a selected id makes found_pred true. -/
lemma found_pred_true_of_mem (db : DB) (u : String) (oid : Nat) (o : OptionRow)
    (ho : o ∈ db.options) (hb : option_belongs db u o = true) (hid : o.id = oid) :
    found_pred db u oid = true := by
  rw [found_pred, List.any_eq_true]
  exact ⟨o, ho, by simp [hid, hb]⟩

/-- With every per-iteration GET succeeding, the increment loop issues exactly
one PATCH per selected id that has a matching poll option (in selection order)
and emits no errors, whatever the PATCH statuses. -/
lemma increment_loop_calls (u : String) (pOk : Nat → Bool) :
    ∀ (sel : List Nat) (db : DB) (i : Nat),
      (increment_loop db u sel (fun _ => true) pOk i).2.1 =
        sel.filter (found_pred db u) ∧
      (increment_loop db u sel (fun _ => true) pOk i).2.2 = [] := by
  intro sel
  induction sel with
  | nil => intro db i; simp [increment_loop]
  | cons oid rest ih =>
    intro db i
    simp only [increment_loop]
    have hres : (get_options_for_vote db true u).results =
        db.options.filter (fun o => option_belongs db u o) := rfl
    have herr : (get_options_for_vote db true u).errors = [] := rfl
    cases hf : (get_options_for_vote db true u).results.find? (fun o => o.id == oid) with
    | none =>
      rw [hres] at hf
      have hfp := found_pred_false_of_find?_none db u oid hf
      have ihdb := ih db (i + 1)
      simp [herr, ihdb.1, ihdb.2, List.filter_cons, hfp]
    | some o =>
      rw [hres] at hf
      obtain ⟨ho, hb, hid⟩ := of_find?_filter_some db u oid o hf
      have hfp := found_pred_true_of_mem db u oid o ho hb hid
      cases hp : pOk i with
      | false =>
        have ihdb := ih db (i + 1)
        simp [herr, ihdb.1, ihdb.2, List.filter_cons, hfp]
      | true =>
        simp only [if_pos rfl, if_true]
        have hv2 : (dbPatch db oid (o.count + 1)).votes = db.votes := rfl
        have ho2 : (dbPatch db oid (o.count + 1)).options.map (fun o => (o.id, o.vote)) =
            db.options.map (fun o => (o.id, o.vote)) :=
          pairs_of_triples (patch_map_triples db.options oid (o.count + 1))
        have hfun : found_pred (dbPatch db oid (o.count + 1)) u = found_pred db u :=
          funext (found_pred_congr db (dbPatch db oid (o.count + 1)) u hv2 ho2)
        have ihdb := ih (dbPatch db oid (o.count + 1)) (i + 1)
        simp only [dbPatch] at ihdb hfun
        simp [herr, ihdb.1, ihdb.2, List.filter_cons, hfp, hfun]

/-- The increment loop is driven entirely by the votes and options tables: two
stores agreeing there produce the same final options, PATCH calls and errors. -/
lemma increment_loop_db_congr (u : String) (fOk pOk : Nat → Bool) :
    ∀ (sel : List Nat) (db db' : DB) (i : Nat),
      db'.votes = db.votes → db'.options = db.options →
      (increment_loop db' u sel fOk pOk i).1.options =
        (increment_loop db u sel fOk pOk i).1.options ∧
      (increment_loop db' u sel fOk pOk i).2.1 =
        (increment_loop db u sel fOk pOk i).2.1 ∧
      (increment_loop db' u sel fOk pOk i).2.2 =
        (increment_loop db u sel fOk pOk i).2.2 := by
  intro sel
  induction sel with
  | nil => intro db db' i hv ho; simp [increment_loop, ho]
  | cons oid rest ih =>
    intro db db' i hv ho
    have hbel : (fun o => option_belongs db' u o) = (fun o => option_belongs db u o) :=
      funext (fun o => option_belongs_congr db db' u o hv)
    have hfetch : get_options_for_vote db' (fOk i) u = get_options_for_vote db (fOk i) u := by
      cases hfl : fOk i <;> simp [get_options_for_vote, ho, hbel]
    simp only [increment_loop, hfetch]
    cases hf : (get_options_for_vote db (fOk i) u).results.find? (fun o => o.id == oid) with
    | none =>
      have ihdb := ih db db' (i + 1) hv ho
      simp [ihdb.1, ihdb.2.1, ihdb.2.2]
    | some o =>
      cases hp : pOk i with
      | false =>
        have ihdb := ih db db' (i + 1) hv ho
        simp [ihdb.1, ihdb.2.1, ihdb.2.2]
      | true =>
        simp only [if_pos rfl, if_true]
        have ihdb := ih (dbPatch db oid (o.count + 1)) (dbPatch db' oid (o.count + 1))
          (i + 1) (by simpa [dbPatch] using hv) (by simp [dbPatch, patch_count, ho])
        simp only [dbPatch] at ihdb
        simp [ihdb.1, ihdb.2.1, ihdb.2.2]

/-- One step of the increment loop commutes with bump_selected: patching the
found row and then bumping the remaining selection equals bumping the whole
selection, given distinct ids. -/
lemma bump_step (db : DB) (u : String) (oid : Nat) (rest : List Nat)
    (o : OptionRow) (ho : o ∈ db.options) (hb : option_belongs db u o = true)
    (hid : o.id = oid) (hids : (db.options.map (fun o => o.id)).Nodup)
    (hoid_rest : oid ∉ rest) :
    ∀ p ∈ db.options,
      (fun q => if q.id ∈ rest ∧
            option_belongs (dbPatch db oid (o.count + 1)) u q = true
          then { q with count := q.count + 1 } else q)
        (if p.id == oid then { p with count := o.count + 1 } else p) =
      (if p.id ∈ (oid :: rest) ∧ option_belongs db u p = true
       then { p with count := p.count + 1 } else p) := by
  intro p hp
  beta_reduce
  by_cases hpid : p.id = oid
  · have hpo : p = o :=
      List.inj_on_of_nodup_map hids hp ho (hpid.trans hid.symm)
    subst hpo
    have hbq : (p.id == oid) = true := by simp [hpid]
    rw [if_pos hbq]
    have hc1 : ¬ (({ p with count := p.count + 1 } : OptionRow).id ∈ rest ∧
        option_belongs (dbPatch db oid (p.count + 1)) u
          { p with count := p.count + 1 } = true) := by
      intro hc
      apply hoid_rest
      have h3 : ({ p with count := p.count + 1 } : OptionRow).id = oid := hpid
      rw [h3] at hc
      exact hc.1
    have hc2 : p.id ∈ oid :: rest ∧ option_belongs db u p = true :=
      ⟨by rw [hpid]; exact List.mem_cons_self oid rest, hb⟩
    rw [if_neg hc1, if_pos hc2]
  · have hbq : ¬ ((p.id == oid) = true) := by simp [hpid]
    rw [if_neg hbq]
    have hbelp : option_belongs (dbPatch db oid (o.count + 1)) u p =
        option_belongs db u p :=
      option_belongs_congr db (dbPatch db oid (o.count + 1)) u p rfl
    by_cases h1 : p.id ∈ rest ∧ option_belongs db u p = true
    · rw [if_pos (by rw [hbelp]; exact h1),
        if_pos ⟨List.mem_cons_of_mem oid h1.1, h1.2⟩]
    · rw [if_neg (by rw [hbelp]; exact h1), if_neg]
      intro h2
      rcases List.mem_cons.mp h2.1 with h3 | h3
      · exact hpid h3
      · exact h1 ⟨h3, h2.2⟩

/-- With every GET and PATCH succeeding and no duplicate ids, the increment
loop raises by one the count of exactly the selected options belonging to the
poll, issues one PATCH per matching selected id, and emits no error. -/
lemma increment_loop_ok (u : String) :
    ∀ (sel : List Nat) (db : DB) (i : Nat), sel.Nodup →
      (db.options.map (fun o => o.id)).Nodup →
      increment_loop db u sel (fun _ => true) (fun _ => true) i =
        ({ db with options := bump_selected db u sel },
          sel.filter (found_pred db u), []) := by
  intro sel
  induction sel with
  | nil =>
    intro db i _ _
    simp [increment_loop, bump_selected]
  | cons oid rest ih =>
    intro db i hsel hids
    have hoid_rest : oid ∉ rest := (List.nodup_cons.mp hsel).1
    have hrest : rest.Nodup := (List.nodup_cons.mp hsel).2
    simp only [increment_loop]
    have hres : (get_options_for_vote db true u).results =
        db.options.filter (fun o => option_belongs db u o) := rfl
    have herr : (get_options_for_vote db true u).errors = [] := rfl
    cases hf : (get_options_for_vote db true u).results.find? (fun o => o.id == oid) with
    | none =>
      rw [hres] at hf
      have hfp := found_pred_false_of_find?_none db u oid hf
      have hnone : ∀ p ∈ db.options, ¬ (p.id = oid ∧ option_belongs db u p = true) := by
        intro p hp hc
        have h4 : found_pred db u oid = true :=
          found_pred_true_of_mem db u oid p hp hc.2 hc.1
        rw [hfp] at h4
        exact Bool.false_ne_true h4
      have hbump : bump_selected db u (oid :: rest) = bump_selected db u rest := by
        rw [bump_selected, bump_selected]
        apply List.map_congr_left
        intro p hp
        by_cases h1 : p.id ∈ rest ∧ option_belongs db u p = true
        · rw [if_pos h1, if_pos ⟨List.mem_cons_of_mem oid h1.1, h1.2⟩]
        · rw [if_neg h1, if_neg]
          intro h2
          rcases List.mem_cons.mp h2.1 with h3 | h3
          · exact hnone p hp ⟨h3, h2.2⟩
          · exact h1 ⟨h3, h2.2⟩
      have ihdb := ih db (i + 1) hrest hids
      rw [ihdb, herr, hbump]
      simp [List.filter_cons, hfp]
    | some o =>
      rw [hres] at hf
      obtain ⟨ho, hb, hid⟩ := of_find?_filter_some db u oid o hf
      have hfp := found_pred_true_of_mem db u oid o ho hb hid
      simp only [if_pos rfl, if_true]
      have hids2 : ((dbPatch db oid (o.count + 1)).options.map (fun o => o.id)).Nodup := by
        have h2 := ids_of_triples (patch_map_triples db.options oid (o.count + 1))
        rw [dbPatch]
        simpa [h2] using hids
      have ihdb := ih (dbPatch db oid (o.count + 1)) (i + 1) hrest hids2
      have hv2 : (dbPatch db oid (o.count + 1)).votes = db.votes := rfl
      have ho2 : (dbPatch db oid (o.count + 1)).options.map (fun o => (o.id, o.vote)) =
          db.options.map (fun o => (o.id, o.vote)) :=
        pairs_of_triples (patch_map_triples db.options oid (o.count + 1))
      have hfun : found_pred (dbPatch db oid (o.count + 1)) u = found_pred db u :=
        funext (found_pred_congr db (dbPatch db oid (o.count + 1)) u hv2 ho2)
      have hbump : bump_selected (dbPatch db oid (o.count + 1)) u rest =
          bump_selected db u (oid :: rest) := by
        rw [bump_selected, bump_selected]
        show (patch_count db.options oid (o.count + 1)).map _ = _
        rw [patch_count, List.map_map]
        exact List.map_congr_left
          (bump_step db u oid rest o ho hb hid hids hoid_rest)
      simp only [dbPatch] at ihdb hfun hbump
      rw [ihdb]
      simp only [hbump, hfun]
      simp [List.filter_cons, hfp, herr]

/-- submit_vote with a successful response POST: the response row is appended
first, then the increment loop runs, and the function returns True. -/
lemma submit_vote_true_eq (db : DB) (fOk pOk : Nat → Bool) (u : String)
    (sel : List Nat) (now : String) :
    submit_vote db true fOk pOk u sel now =
      ⟨(increment_loop (dbResp db u sel now) u sel fOk pOk 0).1, true,
        (increment_loop (dbResp db u sel now) u sel fOk pOk 0).2.1,
        (increment_loop (dbResp db u sel now) u sel fOk pOk 0).2.2⟩ := rfl

/-- submit_vote with a failed response POST: no row is recorded, the increment
loop still runs, and only afterwards the error is reported and False returned. -/
lemma submit_vote_false_eq (db : DB) (fOk pOk : Nat → Bool) (u : String)
    (sel : List Nat) (now : String) :
    submit_vote db false fOk pOk u sel now =
      ⟨(increment_loop db u sel fOk pOk 0).1, false,
        (increment_loop db u sel fOk pOk 0).2.1,
        (increment_loop db u sel fOk pOk 0).2.2 ++ [msg_submit_failed]⟩ := rfl

/-- Sum of a list mapped into the rationals with a common factor. -/
lemma sum_map_rat_mul (l : List Nat) (c : ℚ) :
    (l.map (fun n : Nat => (n : ℚ) * c)).sum = (l.sum : ℚ) * c := by
  induction l with
  | nil => simp
  | cons a t ih =>
    simp only [List.map_cons, List.sum_cons, ih]
    push_cast
    ring

/-- C3: the displayed tally computes each option's percentage as count over the
poll's total count times 100; every percentage is 0 when the total is 0, and
when the total is positive the percentages sum to exactly 100. -/
theorem C3_tally (opts : List OptionRow) :
    (total_votes opts = 0 → ∀ row ∈ results_data opts, row.percentage = 0) ∧
    (0 < total_votes opts → ∀ row ∈ results_data opts,
      ∃ o ∈ opts, row.percentage = ((o.count : ℚ) / (total_votes opts : ℚ)) * 100) ∧
    (0 < total_votes opts →
      ((results_data opts).map (fun row => row.percentage)).sum = 100) := by
  refine ⟨?_, ?_, ?_⟩
  · intro h0 row hrow
    rw [results_data] at hrow
    obtain ⟨o, _, rfl⟩ := List.mem_map.mp hrow
    simp [percentage_of, h0]
  · intro hpos row hrow
    rw [results_data] at hrow
    obtain ⟨o, ho, rfl⟩ := List.mem_map.mp hrow
    exact ⟨o, ho, by simp [percentage_of, hpos]⟩
  · intro hpos
    have hT : ((total_votes opts : ℚ)) ≠ 0 :=
      Nat.cast_ne_zero.mpr (Nat.pos_iff_ne_zero.mp hpos)
    have h1 : ((results_data opts).map (fun row => row.percentage)) =
        opts.map (fun o => (o.count : ℚ) * (100 / (total_votes opts : ℚ))) := by
      rw [results_data, List.map_map]
      apply List.map_congr_left
      intro o _
      simp only [Function.comp, percentage_of, if_pos hpos]
      ring
    have h2 : opts.map (fun o => (o.count : ℚ) * (100 / (total_votes opts : ℚ))) =
        (opts.map (fun o => o.count)).map
          (fun n : Nat => (n : ℚ) * (100 / (total_votes opts : ℚ))) := by
      rw [List.map_map]
      rfl
    rw [h1, h2, sum_map_rat_mul]
    rw [total_votes]
    rw [mul_comm, div_mul_cancel₀]
    rw [← total_votes]
    exact hT

/-- Witness for C3 on the demo options (Pizza 1 vote, Tacos 0): the total is
positive and the percentages sum to 100. -/
theorem C3_tally_witness :
    0 < total_votes optsDemo ∧
    ((results_data optsDemo).map (fun row => row.percentage)).sum = 100 :=
  ⟨by decide, (C3_tally optsDemo).2.2 (by decide)⟩

/-- C8: every data-access operation, when its single REST call fails, emits one
user-visible error and returns the empty list (reads) or an unchanged store and
None (creates); each operation issues exactly one request whatever the status,
so there is no retry. -/
theorem C8_rest_failures (db : DB) (key u q t now : String) (maxSel vid : Nat) :
    ((get_all_votes db false).results = [] ∧
      (get_all_votes db false).errors = [msg_fetch_votes_failed] ∧
      ∀ ok, (get_all_votes db ok).requests = 1) ∧
    ((get_options_for_vote db false key).results = [] ∧
      (get_options_for_vote db false key).errors = [msg_fetch_options_failed] ∧
      ∀ ok, (get_options_for_vote db ok key).requests = 1) ∧
    ((get_responses_for_vote db false key).results = [] ∧
      (get_responses_for_vote db false key).errors = [msg_fetch_responses_failed] ∧
      ∀ ok, (get_responses_for_vote db ok key).requests = 1) ∧
    ((create_vote db false u q maxSel now).db = db ∧
      (create_vote db false u q maxSel now).created = none ∧
      (create_vote db false u q maxSel now).errors = [msg_create_vote_failed] ∧
      ∀ ok, (create_vote db ok u q maxSel now).requests = 1) ∧
    ((create_option db false vid t).db = db ∧
      (create_option db false vid t).created = none ∧
      (create_option db false vid t).errors = [msg_create_option_failed] ∧
      ∀ ok, (create_option db ok vid t).requests = 1) := by
  refine ⟨⟨rfl, rfl, fun ok => ?_⟩, ⟨rfl, rfl, fun ok => ?_⟩,
    ⟨rfl, rfl, fun ok => ?_⟩, ⟨rfl, rfl, rfl, fun ok => ?_⟩,
    ⟨rfl, rfl, rfl, fun ok => ?_⟩⟩ <;> cases ok <;> rfl

/-- Counterexample to C9: with the token set in the environment and a different
token in the secrets file, the application reads the secrets-file token, so the
environment variable does not take precedence for the access token. -/
theorem C9_counterexample :
    envDemo kEnvToken = some tokEnvDemo ∧
    BASEROW_API_TOKEN envDemo secretsDemo = some tokSecretsDemo ∧
    BASEROW_API_TOKEN envDemo secretsDemo ≠ envDemo kEnvToken := by
  refine ⟨rfl, rfl, ?_⟩
  decide

/-- C9 as amended: only the base URL is looked up in the environment first
(falling back to the secrets file, then a built-in default); the access token
and the three table identifiers are read from the secrets file alone, whatever
the environment holds. -/
theorem C9_amended (env secretsMap : String → Option String) (v : String)
    (h : env kEnvUrl = some v) :
    BASEROW_API_URL env secretsMap = v ∧
    ∀ env2 : String → Option String,
      BASEROW_API_TOKEN env2 secretsMap = secretsMap kSecretsToken ∧
      VOTES_TABLE_ID env2 secretsMap = secretsMap kVotesId ∧
      OPTIONS_TABLE_ID env2 secretsMap = secretsMap kOptionsId ∧
      RESPONSES_TABLE_ID env2 secretsMap = secretsMap kResponsesId := by
  refine ⟨?_, fun env2 => ⟨rfl, rfl, rfl, rfl⟩⟩
  rw [BASEROW_API_URL, h]
  rfl

/-- Witness for the amended C9: with the URL variable set in the environment,
the configured URL is the environment's value. -/
theorem C9_amended_witness :
    envUrlDemo kEnvUrl = some urlDemo ∧
    BASEROW_API_URL envUrlDemo secretsDemo = urlDemo :=
  ⟨rfl, (C9_amended envUrlDemo secretsDemo urlDemo rfl).1⟩

/-- Counterexample to C4: on the demo store, a submission whose response POST
fails still issues the count-increment PATCH for the selected option (the loop
runs before the status check), raising Pizza's stored count to 1, while the
function reports the error and returns False. -/
theorem C4_counterexample :
    (submit_vote dbDemo false (fun _ => true) (fun _ => true) uDemo [2] tDemo).result
      = false ∧
    (submit_vote dbDemo false (fun _ => true) (fun _ => true) uDemo [2] tDemo).errors
      = [msg_submit_failed] ∧
    (submit_vote dbDemo false (fun _ => true) (fun _ => true) uDemo [2] tDemo).patchCalls
      = [2] ∧
    (submit_vote dbDemo false (fun _ => true) (fun _ => true) uDemo [2] tDemo).patchCalls
      ≠ [] ∧
    (submit_vote dbDemo false (fun _ => true) (fun _ => true) uDemo [2] tDemo).db.options.map
      (fun o => o.count) = [1, 0] := by
  refine ⟨?_, ?_, ?_, ?_, ?_⟩ <;> decide

/-- C4 as amended: when the response-creation POST fails, submit_vote reports a
visible error and returns False, but it does not abort: the count-increment
PATCH calls are exactly those of a successful submission. -/
theorem C4_amended (db : DB) (fOk pOk : Nat → Bool) (key : String)
    (sel : List Nat) (now : String) :
    (submit_vote db false fOk pOk key sel now).result = false ∧
    msg_submit_failed ∈ (submit_vote db false fOk pOk key sel now).errors ∧
    (submit_vote db false fOk pOk key sel now).patchCalls =
      (submit_vote db true fOk pOk key sel now).patchCalls := by
  have hcong := increment_loop_db_congr key fOk pOk sel db (dbResp db key sel now)
    0 rfl rfl
  refine ⟨rfl, ?_, ?_⟩
  · rw [submit_vote_false_eq]
    simp
  · rw [submit_vote_false_eq, submit_vote_true_eq]
    exact (hcong.2.1).symm

/-- C10: a selected id matching no option of the poll is skipped silently: no
PATCH is issued for it, the submission emits no error beyond the response POST
outcome, and the returned result is exactly the response POST status. -/
theorem C10_unknown_id_skipped (db : DB) (key now : String) (sel : List Nat)
    (respOk : Bool) (pOk : Nat → Bool) (oid : Nat)
    (hno : found_pred db key oid = false) :
    oid ∉ (submit_vote db respOk (fun _ => true) pOk key sel now).patchCalls ∧
    (submit_vote db respOk (fun _ => true) pOk key sel now).errors =
      (if respOk then [] else [msg_submit_failed]) ∧
    (submit_vote db respOk (fun _ => true) pOk key sel now).result = respOk := by
  cases respOk with
  | false =>
    have hc := increment_loop_calls key pOk sel db 0
    rw [submit_vote_false_eq]
    refine ⟨?_, ?_, rfl⟩
    · simp only [hc.1]
      intro hmem
      have h2 := (List.mem_filter.mp hmem).2
      rw [hno] at h2
      exact Bool.false_ne_true h2
    · simp [hc.2]
  | true =>
    have hc := increment_loop_calls key pOk sel (dbResp db key sel now) 0
    have hfp : found_pred (dbResp db key sel now) key = found_pred db key := rfl
    rw [submit_vote_true_eq]
    refine ⟨?_, ?_, rfl⟩
    · simp only [hc.1, hfp]
      intro hmem
      have h2 := (List.mem_filter.mp hmem).2
      rw [hno] at h2
      exact Bool.false_ne_true h2
    · simp [hc.2]

/-- Witness for C10: submitting the selection [2, 99] on the demo store, where
no option has id 99, issues no PATCH for 99 while the submission succeeds. -/
theorem C10_witness :
    found_pred dbDemo uDemo 99 = false ∧
    99 ∉ (submit_vote dbDemo true (fun _ => true) (fun _ => true) uDemo
      [2, 99] tDemo).patchCalls ∧
    (submit_vote dbDemo true (fun _ => true) (fun _ => true) uDemo
      [2, 99] tDemo).result = true := by
  have h := C10_unknown_id_skipped dbDemo uDemo tDemo [2, 99] true
    (fun _ => true) 99 (by decide)
  exact ⟨by decide, h.1, h.2.2⟩

/-- C5: an accepted vote submission with a successful response POST appends
exactly one response row, then issues one PATCH per selected option in
selection order, raising each selected option's count by exactly one; the
votes table, non-selected options and existing responses are unchanged and no
error is emitted. -/
theorem C5_accepted_submission (db : DB) (vote : Vote) (sel : List Nat)
    (now : String)
    (hv : vote ∈ db.votes)
    (hids : (db.options.map (fun o => o.id)).Nodup)
    (hsel : sel.Nodup)
    (hbel : ∀ oid ∈ sel, ∃ o ∈ db.options, o.id = oid ∧ o.vote = vote.id) :
    (submit_vote db true (fun _ => true) (fun _ => true) vote.uuid sel now).result
      = true ∧
    (submit_vote db true (fun _ => true) (fun _ => true) vote.uuid sel now).db.responses
      = db.responses ++ [respRow db vote.uuid sel now] ∧
    (submit_vote db true (fun _ => true) (fun _ => true) vote.uuid sel now).db.votes
      = db.votes ∧
    (submit_vote db true (fun _ => true) (fun _ => true) vote.uuid sel now).patchCalls
      = sel ∧
    (submit_vote db true (fun _ => true) (fun _ => true) vote.uuid sel now).errors
      = [] ∧
    (submit_vote db true (fun _ => true) (fun _ => true) vote.uuid sel now).db.options
      = db.options.map
          (fun o => if o.id ∈ sel then { o with count := o.count + 1 } else o) := by
  have hids2 : ((dbResp db vote.uuid sel now).options.map (fun o => o.id)).Nodup := hids
  have hloop := increment_loop_ok vote.uuid sel (dbResp db vote.uuid sel now) 0
    hsel hids2
  have hfp : ∀ oid ∈ sel, found_pred db vote.uuid oid = true := by
    intro oid hoid
    obtain ⟨o', ho', hoid', hvote'⟩ := hbel oid hoid
    refine found_pred_true_of_mem db vote.uuid oid o' ho' ?_ hoid'
    simp only [option_belongs, List.any_eq_true]
    exact ⟨vote, hv, by simp [hvote']⟩
  have hfilter : sel.filter (found_pred (dbResp db vote.uuid sel now) vote.uuid)
      = sel := by
    apply List.filter_eq_self.mpr
    intro oid hoid
    exact hfp oid hoid
  have hbump : bump_selected (dbResp db vote.uuid sel now) vote.uuid sel =
      db.options.map
        (fun o => if o.id ∈ sel then { o with count := o.count + 1 } else o) := by
    show bump_selected db vote.uuid sel = _
    rw [bump_selected]
    apply List.map_congr_left
    intro p hp
    by_cases hmem : p.id ∈ sel
    · obtain ⟨o', ho', hoid', hvote'⟩ := hbel p.id hmem
      have hpo : p = o' := List.inj_on_of_nodup_map hids hp ho' hoid'.symm
      have hbelp : option_belongs db vote.uuid p = true := by
        simp only [option_belongs, List.any_eq_true]
        refine ⟨vote, hv, ?_⟩
        have hpv : p.vote = vote.id := by rw [hpo, hvote']
        simp [hpv]
      rw [if_pos ⟨hmem, hbelp⟩, if_pos hmem]
    · rw [if_neg (fun hc => hmem hc.1), if_neg hmem]
  rw [submit_vote_true_eq, hloop]
  exact ⟨rfl, rfl, rfl, hfilter, rfl, hbump⟩

/-- Witness for C5 on the demo store: the single-select vote for Pizza brings
Pizza's count to 1 while Tacos stays 0, with exactly one PATCH issued. -/
theorem C5_witness :
    (submit_vote dbDemo true (fun _ => true) (fun _ => true) uDemo [2] tDemo).result
      = true ∧
    (submit_vote dbDemo true (fun _ => true) (fun _ => true) uDemo [2] tDemo).db.options.map
      (fun o => (o.option_text, o.count)) = [(sPizza, 1), (sTacos, 0)] ∧
    (submit_vote dbDemo true (fun _ => true) (fun _ => true) uDemo [2] tDemo).patchCalls
      = [2] := by
  have h := C5_accepted_submission dbDemo ⟨1, uDemo, qLunch, 1, tDemo⟩ [2] tDemo
    (by decide) (by decide) (by decide) (by decide)
  exact ⟨h.1, by decide, h.2.2.2.1⟩

/-- C1: on a vote-page submission, an empty selection is rejected with the
select-at-least-one warning and the store is untouched; a selection larger than
the poll's max_selections is rejected with the at-most warning and the store is
untouched; otherwise the submission is accepted and (with the response POST
succeeding) the response is recorded. -/
theorem C1_validation (db : DB) (key now : String) (okV okO : Bool)
    (radioIdx : Nat) (checked : Nat → Bool) (respOk : Bool)
    (fOk pOk : Nat → Bool) (vote : Vote) (sel : List Nat)
    (hfind : get_vote_by_id db okV (Sum.inr key) = some vote)
    (hui : ui_selected vote (get_options_for_vote db okO key).results radioIdx checked
      = some sel) :
    (sel.length = 0 →
      display_page_submit db key okV okO radioIdx checked respOk fOk pOk now =
        ⟨db, [warn_select_one], [], false⟩) ∧
    (vote.max_selections < sel.length →
      display_page_submit db key okV okO radioIdx checked respOk fOk pOk now =
        ⟨db, [warn_at_most vote.max_selections], [], false⟩) ∧
    (sel.length ≠ 0 → ¬ vote.max_selections < sel.length → respOk = true →
      (display_page_submit db key okV okO radioIdx checked respOk fOk pOk now).success
        = true ∧
      (display_page_submit db key okV okO radioIdx checked respOk fOk pOk now).db.responses
        = db.responses ++ [respRow db key sel now] ∧
      (display_page_submit db key okV okO radioIdx checked respOk fOk pOk now).warnings
        = []) := by
  refine ⟨?_, ?_, ?_⟩
  · intro h0
    simp [display_page_submit, hfind, hui, h0]
  · intro hlt
    have h0 : ¬ (sel.length = 0) := by omega
    simp [display_page_submit, hfind, hui, h0, hlt]
  · intro h0 hnlt hresp
    subst hresp
    simp only [display_page_submit, hfind, hui]
    rw [if_neg h0, if_neg hnlt]
    refine ⟨rfl, ?_, rfl⟩
    rw [submit_vote_true_eq]
    have hs := increment_loop_shape key sel fOk pOk (dbResp db key sel now) 0
    rw [hs.2.1]
    rfl

/-- Witness for C1 on the demo store: the radio selection of Pizza passes
validation and the submission is recorded. -/
theorem C1_witness :
    get_vote_by_id dbDemo true (Sum.inr uDemo) = some ⟨1, uDemo, qLunch, 1, tDemo⟩ ∧
    ui_selected ⟨1, uDemo, qLunch, 1, tDemo⟩
      (get_options_for_vote dbDemo true uDemo).results 0 (fun _ => false)
      = some [2] ∧
    (display_page_submit dbDemo uDemo true true 0 (fun _ => false) true
      (fun _ => true) (fun _ => true) tDemo).success = true ∧
    (display_page_submit dbDemo uDemo true true 0 (fun _ => false) true
      (fun _ => true) (fun _ => true) tDemo).db.responses =
      dbDemo.responses ++ [respRow dbDemo uDemo [2] tDemo] := by
  have h := C1_validation dbDemo uDemo tDemo true true 0 (fun _ => false) true
    (fun _ => true) (fun _ => true) ⟨1, uDemo, qLunch, 1, tDemo⟩ [2]
    (by decide) (by decide)
  have h3 := h.2.2 (by decide) (by decide) rfl
  exact ⟨by decide, by decide, h3.1, h3.2.1⟩

/-- Every text kept by collect_options is non-empty. -/
lemma collect_options_nonempty (raw : List String) :
    ∀ t ∈ collect_options raw, ¬ (t = "") := by
  intro t ht
  rw [collect_options] at ht
  have h2 := (List.mem_filter.mp ht).2
  intro he
  rw [he] at h2
  simp at h2

/-- The texts of a fully successful creation loop's rows, in order. -/
lemma fresh_options_map_text :
    ∀ (texts : List String) (vid s : Nat),
      (fresh_options vid s texts).map (fun o => o.option_text) = texts := by
  intro texts
  induction texts with
  | nil => intro vid s; rfl
  | cons t rest ih =>
    intro vid s
    simp [fresh_options, ih vid (s + 1)]

/-- Every row of a fully successful creation loop carries the parent vote id, a
zero count, and an id in the fresh range. -/
lemma fresh_options_forall :
    ∀ (texts : List String) (vid s : Nat),
      ∀ o ∈ fresh_options vid s texts,
        o.vote = vid ∧ o.count = 0 ∧ s ≤ o.id ∧ o.id < s + texts.length := by
  intro texts
  induction texts with
  | nil => intro vid s o ho; simp [fresh_options] at ho
  | cons t rest ih =>
    intro vid s o ho
    rw [fresh_options] at ho
    rcases List.mem_cons.mp ho with h | h
    · subst h
      refine ⟨rfl, rfl, Nat.le_refl s, by simp⟩
    · obtain ⟨h1, h2, h3, h4⟩ := ih vid (s + 1) o h
      refine ⟨h1, h2, by omega, by simp at h4 ⊢; omega⟩

/-- The fresh rows have pairwise distinct ids. -/
lemma fresh_options_ids_nodup :
    ∀ (texts : List String) (vid s : Nat),
      ((fresh_options vid s texts).map (fun o => o.id)).Nodup := by
  intro texts
  induction texts with
  | nil => intro vid s; simp [fresh_options]
  | cons t rest ih =>
    intro vid s
    simp only [fresh_options, List.map_cons]
    rw [List.nodup_cons]
    refine ⟨?_, ih vid (s + 1)⟩
    intro hmem
    obtain ⟨o, ho, hoid⟩ := List.mem_map.mp hmem
    have h3 := (fresh_options_forall rest vid (s + 1) o ho).2.2.1
    omega

/-- With every create_option POST succeeding and non-empty texts, the creation
loop appends exactly one row per text with consecutive fresh ids and count 0,
and advances the id counter accordingly. -/
lemma create_options_loop_ok :
    ∀ (texts : List String) (db : DB) (vid i : Nat),
      (∀ t ∈ texts, ¬ (t = "")) →
      create_options_loop db vid texts (fun _ => true) i =
        { db with
          options := db.options ++ fresh_options vid db.nextId texts
          nextId := db.nextId + texts.length } := by
  intro texts
  induction texts with
  | nil => intro db vid i _; simp [create_options_loop, fresh_options]
  | cons t rest ih =>
    intro db vid i h
    have ht : ¬ (t = "") := h t (List.mem_cons_self t rest)
    have hb : (!(t == "")) = true := by simp [ht]
    simp only [create_options_loop, hb, if_true]
    rw [ih _ vid (i + 1) (fun x hx => h x (List.mem_cons_of_mem t hx))]
    simp only [create_option, if_pos rfl, fresh_options]
    simp [List.append_assoc]
    omega

/-- The whole creation submit with the question and option gates passed and
every POST succeeding: one vote row and its fresh option rows are appended. -/
lemma render_create_submit_ok (db : DB) (u q now : String) (maxSel : Nat)
    (raw : List String) (hq : q ≠ "")
    (hlen : 2 ≤ (collect_options raw).length) :
    render_create_submit db u q maxSel raw true (fun _ => true) now =
      ({ db with
          votes := db.votes ++ [⟨db.nextId, u, q, maxSel, now⟩]
          options := db.options ++
            fresh_options db.nextId (db.nextId + 1) (collect_options raw)
          nextId := db.nextId + 1 + (collect_options raw).length }, true) := by
  have hnlt : ¬ ((collect_options raw).length < 2) := Nat.not_lt.mpr hlen
  have hcv : (create_vote db true u q maxSel now).created
      = some ⟨db.nextId, u, q, maxSel, now⟩ := rfl
  have hcd : (create_vote db true u q maxSel now).db
      = { db with
          votes := db.votes ++ [⟨db.nextId, u, q, maxSel, now⟩]
          nextId := db.nextId + 1 } := rfl
  simp only [render_create_submit, if_neg hq, if_neg hnlt, hcv, hcd]
  rw [create_options_loop_ok (collect_options raw) _ _ 0
    (collect_options_nonempty raw)]

/-- C6: creation proceeds only when the question is non-empty and at least two
non-empty option texts were supplied; when it proceeds with every POST
succeeding, the new poll row carries the given question and limit and every
created option row has count 0, one row per collected text in order. -/
theorem C6_creation (db : DB) (u q now : String) (maxSel : Nat)
    (raw : List String) :
    (∀ (voteOk : Bool) (optOk : Nat → Bool),
      (q = "" ∨ (collect_options raw).length < 2) →
      render_create_submit db u q maxSel raw voteOk optOk now = (db, false)) ∧
    (q ≠ "" → 2 ≤ (collect_options raw).length →
      (render_create_submit db u q maxSel raw true (fun _ => true) now).2 = true ∧
      (render_create_submit db u q maxSel raw true (fun _ => true) now).1.votes
        = db.votes ++ [⟨db.nextId, u, q, maxSel, now⟩] ∧
      (render_create_submit db u q maxSel raw true (fun _ => true) now).1.options
        = db.options ++
            fresh_options db.nextId (db.nextId + 1) (collect_options raw) ∧
      (fresh_options db.nextId (db.nextId + 1) (collect_options raw)).map
        (fun o => o.option_text) = collect_options raw ∧
      ∀ o ∈ fresh_options db.nextId (db.nextId + 1) (collect_options raw),
        o.count = 0) := by
  constructor
  · intro voteOk optOk hgate
    rcases hgate with hgate | hgate
    · simp [render_create_submit, hgate]
    · by_cases hq : q = ""
      · simp [render_create_submit, hq]
      · simp [render_create_submit, hq, hgate]
  · intro hq hlen
    rw [render_create_submit_ok db u q now maxSel raw hq hlen]
    refine ⟨rfl, rfl, rfl, fresh_options_map_text _ _ _, ?_⟩
    intro o ho
    exact (fresh_options_forall _ _ _ o ho).2.1

/-- Witness for C6: creating the Lunch? poll with options Pizza and Tacos and
limit 1 from the empty store yields exactly two option rows, each with count
0. -/
theorem C6_witness :
    qLunch ≠ "" ∧ 2 ≤ (collect_options [sPizza, sTacos]).length ∧
    (render_create_submit initDB uDemo qLunch 1 [sPizza, sTacos] true
      (fun _ => true) tDemo).2 = true ∧
    (render_create_submit initDB uDemo qLunch 1 [sPizza, sTacos] true
      (fun _ => true) tDemo).1.options.map (fun o => (o.option_text, o.count))
      = [(sPizza, 0), (sTacos, 0)] := by
  have h := (C6_creation initDB uDemo qLunch tDemo 1 [sPizza, sTacos]).2
    (by decide) (by decide)
  exact ⟨by decide, by decide, h.1, by decide⟩

/-- C7: a poll created through the creation form (fresh uuid, passing gates,
all POSTs succeeding) and immediately fetched by its public uuid comes back
with the same question and max-selections, and listing its options returns the
collected option texts in order. -/
theorem C7_roundtrip (db : DB) (u q now : String) (maxSel : Nat)
    (raw : List String)
    (hu : ∀ v ∈ db.votes, v.uuid ≠ u)
    (hvo : ∀ o ∈ db.options, o.vote ≠ db.nextId)
    (hq : q ≠ "") (hlen : 2 ≤ (collect_options raw).length) :
    get_vote_by_id
        (render_create_submit db u q maxSel raw true (fun _ => true) now).1
        true (Sum.inr u)
      = some ⟨db.nextId, u, q, maxSel, now⟩ ∧
    (get_options_for_vote
        (render_create_submit db u q maxSel raw true (fun _ => true) now).1
        true u).results.map (fun o => o.option_text)
      = collect_options raw := by
  rw [render_create_submit_ok db u q now maxSel raw hq hlen]
  set v : Vote := ⟨db.nextId, u, q, maxSel, now⟩ with hv
  set fresh := fresh_options db.nextId (db.nextId + 1) (collect_options raw) with hf
  constructor
  · show (db.votes ++ [v]).find? (fun v' => vote_matches (Sum.inr u) v') = some v
    rw [find?_append_of_forall_false]
    · have : vote_matches (Sum.inr u) v = true := by
        simp [vote_matches, hv]
      simp [this]
    · intro v' hv'
      simp [vote_matches]
      exact hu v' hv'
  · show ((db.options ++ fresh).filter
        (fun o => option_belongs ⟨db.votes ++ [v], db.options ++ fresh, db.responses,
          db.nextId + 1 + (collect_options raw).length⟩ u o)).map
        (fun o => o.option_text) = collect_options raw
    rw [List.filter_append]
    have hold : db.options.filter
        (fun o => option_belongs ⟨db.votes ++ [v], db.options ++ fresh, db.responses,
          db.nextId + 1 + (collect_options raw).length⟩ u o) = [] := by
      rw [List.filter_eq_nil_iff]
      intro o ho hcontra
      rw [option_belongs] at hcontra
      simp only [List.any_append, Bool.or_eq_true, List.any_eq_true] at hcontra
      rcases hcontra with ⟨v', hv', hc⟩ | ⟨x, hx, hxc⟩
      · rw [Bool.and_eq_true] at hc
        exact hu v' hv' (eq_of_beq hc.1)
      · have hx2 : x = v := by simpa using hx
        subst hx2
        rw [Bool.and_eq_true] at hxc
        have h2 : v.id = o.vote := eq_of_beq hxc.2
        have h4 : db.nextId = o.vote := by
          rw [hv] at h2
          simpa using h2
        exact hvo o ho h4.symm
    have hnew : fresh.filter
        (fun o => option_belongs ⟨db.votes ++ [v], db.options ++ fresh, db.responses,
          db.nextId + 1 + (collect_options raw).length⟩ u o) = fresh := by
      rw [List.filter_eq_self]
      intro o ho
      have hvote := (fresh_options_forall (collect_options raw) db.nextId
        (db.nextId + 1) o (by rw [← hf]; exact ho)).1
      rw [option_belongs]
      simp only [List.any_append, Bool.or_eq_true, List.any_eq_true]
      right
      simp [hv, hvote]
    rw [hold, hnew, List.nil_append, hf]
    exact fresh_options_map_text _ _ _

/-- Witness for C7: the Lunch? poll created from the empty store round-trips
through its uuid with the same question, limit 1, and option texts. -/
theorem C7_witness :
    get_vote_by_id
        (render_create_submit initDB uDemo qLunch 1 [sPizza, sTacos] true
          (fun _ => true) tDemo).1 true (Sum.inr uDemo)
      = some ⟨1, uDemo, qLunch, 1, tDemo⟩ ∧
    (get_options_for_vote
        (render_create_submit initDB uDemo qLunch 1 [sPizza, sTacos] true
          (fun _ => true) tDemo).1 true uDemo).results.map
      (fun o => o.option_text) = collect_options [sPizza, sTacos] :=
  C7_roundtrip initDB uDemo qLunch tDemo 1 [sPizza, sTacos]
    (by decide) (by decide) (by decide) (by decide)

/-- A successful get_vote_by_id returns a stored vote satisfying the match
condition. -/
lemma get_vote_by_id_mem (db : DB) (ok : Bool) (k : VoteKey) (vote : Vote)
    (h : get_vote_by_id db ok k = some vote) :
    vote ∈ db.votes ∧ vote_matches k vote = true := by
  cases ok with
  | false => exact absurd h (by rw [get_vote_by_id]; simp [get_all_votes])
  | true =>
    rw [get_vote_by_id] at h
    have hm := List.mem_of_find?_eq_some h
    have hp := List.find?_some h
    exact ⟨hm, hp⟩

/-- The form widgets only ever select existing option rows, without
repetition. -/
lemma ui_selected_spec (vote : Vote) (opts : List OptionRow) (radioIdx : Nat)
    (checked : Nat → Bool) (sel : List Nat)
    (h : ui_selected vote opts radioIdx checked = some sel)
    (hnd : (opts.map (fun o => o.id)).Nodup) :
    sel.Nodup ∧ ∀ oid ∈ sel, ∃ o ∈ opts, o.id = oid := by
  rw [ui_selected] at h
  by_cases hm : (vote.max_selections == 1) = true
  · rw [if_pos hm] at h
    by_cases hlt : radioIdx < opts.length
    · rw [dif_pos hlt] at h
      have hsel : sel = [(opts.get ⟨radioIdx, hlt⟩).id] := by
        exact (Option.some.injEq _ _).mp h.symm
      subst hsel
      refine ⟨List.nodup_singleton _, ?_⟩
      intro oid hoid
      rw [List.mem_singleton] at hoid
      exact ⟨opts.get ⟨radioIdx, hlt⟩, List.get_mem opts radioIdx hlt, hoid.symm⟩
    · rw [dif_neg hlt] at h
      exact absurd h (by simp)
  · rw [if_neg hm] at h
    have hsel : sel = (opts.filter (fun o => checked o.id)).map (fun o => o.id) := by
      exact (Option.some.injEq _ _).mp h.symm
    subst hsel
    constructor
    · exact List.Nodup.sublist
        (List.Sublist.map (fun o => o.id) (List.filter_sublist opts)) hnd
    · intro oid hoid
      obtain ⟨o, ho, hoid2⟩ := List.mem_map.mp hoid
      exact ⟨o, (List.mem_filter.mp ho).1, hoid2⟩

/-- submit_vote, whatever the HTTP outcomes: the votes table is untouched, the
response row is appended exactly when the POST succeeded, option rows keep
their id, vote and text, and the id counter advances by the number of rows
created. -/
lemma submit_vote_shape (db : DB) (respOk : Bool) (fOk pOk : Nat → Bool)
    (u : String) (sel : List Nat) (now : String) :
    (submit_vote db respOk fOk pOk u sel now).db.votes = db.votes ∧
    (submit_vote db respOk fOk pOk u sel now).db.responses
      = db.responses ++ (if respOk then [respRow db u sel now] else []) ∧
    (submit_vote db respOk fOk pOk u sel now).db.options.map
        (fun o => (o.id, o.vote, o.option_text))
      = db.options.map (fun o => (o.id, o.vote, o.option_text)) ∧
    db.nextId ≤ (submit_vote db respOk fOk pOk u sel now).db.nextId := by
  cases respOk with
  | false =>
    rw [submit_vote_false_eq]
    have hs := increment_loop_shape u sel fOk pOk db 0
    exact ⟨hs.1, by rw [hs.2.1]; simp, hs.2.2.2, by rw [hs.2.2.1]⟩
  | true =>
    rw [submit_vote_true_eq]
    have hs := increment_loop_shape u sel fOk pOk (dbResp db u sel now) 0
    refine ⟨hs.1, ?_, hs.2.2.2, ?_⟩
    · rw [hs.2.1]
      simp [dbResp]
    · rw [hs.2.2.1]
      show db.nextId ≤ db.nextId + 1
      omega

/-- Transport of an option-row existence statement along preservation of the
id and vote fields. -/
lemma exists_pair_transport (l l' : List OptionRow)
    (h : l'.map (fun o => (o.id, o.vote)) = l.map (fun o => (o.id, o.vote)))
    (vid oid : Nat) (hx : ∃ o ∈ l, o.vote = vid ∧ o.id = oid) :
    ∃ o ∈ l', o.vote = vid ∧ o.id = oid := by
  obtain ⟨o, ho, h1, h2⟩ := hx
  have hmem : ((oid, vid) : Nat × Nat) ∈ l.map (fun o => (o.id, o.vote)) :=
    List.mem_map.mpr ⟨o, ho, by rw [h1, h2]⟩
  rw [← h] at hmem
  obtain ⟨o', ho', heq⟩ := List.mem_map.mp hmem
  have heq2 := Prod.mk.injEq .. ▸ heq
  exact ⟨o', ho', (Prod.mk.injEq _ _ _ _ ▸ heq).2, (Prod.mk.injEq _ _ _ _ ▸ heq).1⟩

/-- Transport of an id bound along preservation of the id fields. -/
lemma ids_bound_transport (l l' : List OptionRow) (n : Nat)
    (h : l'.map (fun o => o.id) = l.map (fun o => o.id))
    (hb : ∀ o ∈ l, o.id < n) : ∀ o ∈ l', o.id < n := by
  intro o' ho'
  have hmem : o'.id ∈ l'.map (fun o => o.id) := List.mem_map.mpr ⟨o', ho', rfl⟩
  rw [h] at hmem
  obtain ⟨o, ho, he⟩ := List.mem_map.mp hmem
  rw [← he]
  exact hb o ho

/-- The creation loop, whatever the per-option HTTP outcomes: it only appends
option rows, each under the given vote with count 0 and a fresh id, with
pairwise distinct new ids. -/
lemma create_options_loop_shape :
    ∀ (texts : List String) (db : DB) (vid i : Nat) (optOk : Nat → Bool),
      ∃ L, (create_options_loop db vid texts optOk i).votes = db.votes ∧
        (create_options_loop db vid texts optOk i).responses = db.responses ∧
        (create_options_loop db vid texts optOk i).options = db.options ++ L ∧
        db.nextId ≤ (create_options_loop db vid texts optOk i).nextId ∧
        (∀ o ∈ L, o.vote = vid ∧ o.count = 0 ∧ db.nextId ≤ o.id ∧
          o.id < (create_options_loop db vid texts optOk i).nextId) ∧
        (L.map (fun o => o.id)).Nodup := by
  intro texts
  induction texts with
  | nil =>
    intro db vid i optOk
    exact ⟨[], rfl, rfl, by simp [create_options_loop], Nat.le_refl _,
      by simp, List.nodup_nil⟩
  | cons t rest ih =>
    intro db vid i optOk
    by_cases ht : (!(t == "")) = true
    · simp only [create_options_loop, ht, if_true]
      cases hok : optOk i with
      | false =>
        have hdb2 : (create_option db false vid t).db = db := rfl
        rw [hdb2]
        exact ih db vid (i + 1) optOk
      | true =>
        have hdb2 : (create_option db true vid t).db =
            { db with
              options := db.options ++ [⟨db.nextId, vid, t, 0⟩]
              nextId := db.nextId + 1 } := rfl
        rw [hdb2]
        obtain ⟨L2, h1, h2, h3, h4, h5, h6⟩ := ih
          { db with
            options := db.options ++ [⟨db.nextId, vid, t, 0⟩]
            nextId := db.nextId + 1 } vid (i + 1) optOk
        have h4b : db.nextId + 1 ≤ (create_options_loop
            { db with
              options := db.options ++ [⟨db.nextId, vid, t, 0⟩]
              nextId := db.nextId + 1 } vid rest optOk (i + 1)).nextId := h4
        refine ⟨⟨db.nextId, vid, t, 0⟩ :: L2, h1, h2, ?_, by omega, ?_, ?_⟩
        · rw [h3]
          simp
        · intro o ho
          rcases List.mem_cons.mp ho with h | h
          · subst h
            refine ⟨rfl, rfl, Nat.le_refl _, ?_⟩
            show db.nextId < _
            omega
          · obtain ⟨ha, hb2, hc, hd⟩ := h5 o h
            have hc2 : db.nextId + 1 ≤ o.id := hc
            exact ⟨ha, hb2, by omega, hd⟩
        · simp only [List.map_cons]
          rw [List.nodup_cons]
          refine ⟨?_, h6⟩
          intro hmem
          obtain ⟨o, ho, he⟩ := List.mem_map.mp hmem
          have hc2 : db.nextId + 1 ≤ o.id := (h5 o ho).2.2.1
          have he2 : o.id = db.nextId := he
          omega
    · simp only [create_options_loop, ht, if_false]
      exact ih db vid (i + 1) optOk

/-- The empty store satisfies the invariant. -/
lemma Inv_init : Inv initDB := by
  refine ⟨?_, ?_, ?_, ?_, ?_, ?_, ?_⟩ <;> simp [initDB, Inv]

/-- The creation submit preserves the invariant, whatever the HTTP outcomes,
given a fresh uuid and the widget-enforced minimum selection limit. -/
lemma step_create_inv (db : DB) (u q now : String) (maxSel : Nat)
    (raw : List String) (voteOk : Bool) (optOk : Nat → Bool)
    (hmax : 1 ≤ maxSel) (hu : ∀ v ∈ db.votes, v.uuid ≠ u) (hInv : Inv db) :
    Inv (render_create_submit db u q maxSel raw voteOk optOk now).1 := by
  obtain ⟨h1, h2, h3, h4, h5, h6, h7⟩ := hInv
  by_cases hq : q = ""
  · have hdb : (render_create_submit db u q maxSel raw voteOk optOk now).1 = db := by
      simp [render_create_submit, hq]
    rw [hdb]
    exact ⟨h1, h2, h3, h4, h5, h6, h7⟩
  by_cases hlen : (collect_options raw).length < 2
  · have hdb : (render_create_submit db u q maxSel raw voteOk optOk now).1 = db := by
      simp [render_create_submit, hq, hlen]
    rw [hdb]
    exact ⟨h1, h2, h3, h4, h5, h6, h7⟩
  cases voteOk with
  | false =>
    have hdb : (render_create_submit db u q maxSel raw false optOk now).1 = db := by
      simp [render_create_submit, hq, hlen, create_vote]
    rw [hdb]
    exact ⟨h1, h2, h3, h4, h5, h6, h7⟩
  | true =>
    have hcv : (create_vote db true u q maxSel now).created
        = some ⟨db.nextId, u, q, maxSel, now⟩ := rfl
    have hcd : (create_vote db true u q maxSel now).db
        = { db with
            votes := db.votes ++ [⟨db.nextId, u, q, maxSel, now⟩]
            nextId := db.nextId + 1 } := rfl
    have hres : (render_create_submit db u q maxSel raw true optOk now).1 =
        create_options_loop
          { db with
            votes := db.votes ++ [⟨db.nextId, u, q, maxSel, now⟩]
            nextId := db.nextId + 1 }
          db.nextId (collect_options raw) optOk 0 := by
      simp only [render_create_submit, if_neg hq, if_neg hlen, hcv, hcd]
    rw [hres]
    obtain ⟨L, g1, g2, g3, g4, g5, g6⟩ := create_options_loop_shape
      (collect_options raw)
      { db with
        votes := db.votes ++ [⟨db.nextId, u, q, maxSel, now⟩]
        nextId := db.nextId + 1 }
      db.nextId 0 optOk
    have g4b : db.nextId + 1 ≤ _ := g4
    refine ⟨?_, ?_, ?_, ?_, ?_, ?_, ?_⟩
    · rw [g1]
      intro v hv
      rcases List.mem_append.mp hv with h | h
      · have := h1 v h
        omega
      · have hveq : v = ⟨db.nextId, u, q, maxSel, now⟩ := by simpa using h
        subst hveq
        show db.nextId < _
        omega
    · rw [g3]
      intro o ho
      rcases List.mem_append.mp ho with h | h
      · have hb : o.id < db.nextId := h2 o h
        omega
      · exact (g5 o h).2.2.2
    · rw [g1]
      simp only [List.map_append]
      rw [List.nodup_append]
      refine ⟨h3, by simp, ?_⟩
      intro a ha ha2
      obtain ⟨v, hv, hveq⟩ := List.mem_map.mp ha
      have ha3 : a = u := by simpa using ha2
      exact hu v hv (by rw [hveq, ha3])
    · rw [g3]
      simp only [List.map_append]
      rw [List.nodup_append]
      refine ⟨h4, g6, ?_⟩
      intro a ha ha2
      obtain ⟨o, ho, hoeq⟩ := List.mem_map.mp ha
      obtain ⟨o', ho', hoeq'⟩ := List.mem_map.mp ha2
      have hb1 : o.id < db.nextId := h2 o ho
      have hb2 : db.nextId + 1 ≤ o'.id := (g5 o' ho').2.2.1
      rw [← hoeq'] at hoeq
      omega
    · rw [g1]
      intro v hv
      rcases List.mem_append.mp hv with h | h
      · exact h5 v h
      · have hveq : v = ⟨db.nextId, u, q, maxSel, now⟩ := by simpa using h
        subst hveq
        exact hmax
    · rw [g1, g2]
      intro r hr
      obtain ⟨v, hv, hveq⟩ := h6 r hr
      exact ⟨v, List.mem_append_left _ hv, hveq⟩
    · rw [g1, g2, g3]
      intro v hv r hr hvr
      rcases List.mem_append.mp hv with h | h
      · obtain ⟨p1, p2, p3, p4⟩ := h7 v h r hr hvr
        refine ⟨p1, p2, p3, ?_⟩
        intro oid hoid
        obtain ⟨o, ho, hov, hid⟩ := p4 oid hoid
        exact ⟨o, List.mem_append_left _ ho, hov, hid⟩
      · have hveq : v = ⟨db.nextId, u, q, maxSel, now⟩ := by simpa using h
        subst hveq
        obtain ⟨v', hv', hveq'⟩ := h6 r hr
        have hvu : v'.uuid = u := by
          rw [hveq', hvr]
        exact absurd hvu (hu v' hv')

/-- The vote-page submit preserves the invariant, whatever the HTTP outcomes
and form inputs. -/
lemma step_vote_inv (db : DB) (key : String) (okV okO : Bool) (radioIdx : Nat)
    (checked : Nat → Bool) (respOk : Bool) (fOk pOk : Nat → Bool) (now : String)
    (hInv : Inv db) :
    Inv (display_page_submit db key okV okO radioIdx checked respOk fOk pOk
      now).db := by
  cases hgv : get_vote_by_id db okV (Sum.inr key) with
  | none =>
    have hdb : (display_page_submit db key okV okO radioIdx checked respOk fOk
        pOk now).db = db := by
      simp [display_page_submit, hgv]
    rw [hdb]
    exact hInv
  | some vote =>
    cases hui : ui_selected vote (get_options_for_vote db okO key).results
        radioIdx checked with
    | none =>
      have hdb : (display_page_submit db key okV okO radioIdx checked respOk fOk
          pOk now).db = db := by
        simp [display_page_submit, hgv, hui]
      rw [hdb]
      exact hInv
    | some sel =>
      by_cases h0 : sel.length = 0
      · have hdb : (display_page_submit db key okV okO radioIdx checked respOk
            fOk pOk now).db = db := by
          simp [display_page_submit, hgv, hui, h0]
        rw [hdb]
        exact hInv
      by_cases hlt : vote.max_selections < sel.length
      · have hdb : (display_page_submit db key okV okO radioIdx checked respOk
            fOk pOk now).db = db := by
          simp [display_page_submit, hgv, hui, h0, hlt]
        rw [hdb]
        exact hInv
      have hd : (display_page_submit db key okV okO radioIdx checked respOk fOk
          pOk now).db = (submit_vote db respOk fOk pOk key sel now).db := by
        simp only [display_page_submit, hgv, hui, if_neg h0, if_neg hlt]
      rw [hd]
      obtain ⟨hsh1, hsh2, hsh3, hsh4⟩ :=
        submit_vote_shape db respOk fOk pOk key sel now
      have hpairs := pairs_of_triples hsh3
      have hids := ids_of_triples hsh3
      obtain ⟨h1, h2, h3, h4, h5, h6, h7⟩ := hInv
      obtain ⟨hvmem, hvmatch⟩ := get_vote_by_id_mem db okV (Sum.inr key) vote hgv
      have hvuuid : vote.uuid = key := eq_of_beq hvmatch
      have hoptsnd : ((get_options_for_vote db okO key).results.map
          (fun o => o.id)).Nodup := by
        cases okO with
        | false => simp [get_options_for_vote]
        | true =>
          exact List.Nodup.sublist
            (List.Sublist.map (fun o => o.id) (List.filter_sublist db.options)) h4
      obtain ⟨hselnd, hselmem⟩ :=
        ui_selected_spec vote _ radioIdx checked sel hui hoptsnd
      have hselopt : ∀ oid ∈ sel, ∃ o ∈ db.options,
          option_belongs db key o = true ∧ o.id = oid := by
        intro oid hoid
        obtain ⟨o, ho, hid⟩ := hselmem oid hoid
        cases okO with
        | false => exact absurd ho (by simp [get_options_for_vote])
        | true =>
          have hof := List.mem_filter.mp (by simpa [get_options_for_vote] using ho)
          exact ⟨o, hof.1, hof.2, hid⟩
      have huuid_inj : ∀ v' ∈ db.votes, v'.uuid = key → v' = vote := by
        intro v' hv' he
        exact List.inj_on_of_nodup_map h3 hv' hvmem (by rw [he, hvuuid])
      refine ⟨?_, ?_, ?_, ?_, ?_, ?_, ?_⟩
      · rw [hsh1]
        intro v hv
        have := h1 v hv
        omega
      · apply ids_bound_transport db.options _ _ hids
        intro o ho
        have := h2 o ho
        omega
      · rw [hsh1]
        exact h3
      · rw [hids]
        exact h4
      · rw [hsh1]
        exact h5
      · rw [hsh1, hsh2]
        intro r hr
        rcases List.mem_append.mp hr with hold | hnew
        · exact h6 r hold
        · cases respOk with
          | false => simp at hnew
          | true =>
            have hrr : r = respRow db key sel now := by simpa using hnew
            subst hrr
            exact ⟨vote, hvmem, hvuuid⟩
      · rw [hsh1, hsh2]
        intro v hv r hr hvr
        rcases List.mem_append.mp hr with hold | hnew
        · obtain ⟨p1, p2, p3, p4⟩ := h7 v hv r hold hvr
          refine ⟨p1, p2, p3, ?_⟩
          intro oid hoid
          exact exists_pair_transport db.options _ hpairs v.id oid (p4 oid hoid)
        · cases respOk with
          | false => simp at hnew
          | true =>
            have hrr : r = respRow db key sel now := by simpa using hnew
            subst hrr
            have hkey : key = v.uuid := hvr
            have hveq : v = vote := huuid_inj v hv hkey.symm
            subst hveq
            refine ⟨hselnd, ?_, ?_, ?_⟩
            · show 1 ≤ sel.length
              omega
            · show sel.length ≤ v.max_selections
              exact Nat.not_lt.mp hlt
            · intro oid hoid
              obtain ⟨o, ho, hbel, hid⟩ := hselopt oid hoid
              rw [option_belongs] at hbel
              obtain ⟨v'', hv'', hb2⟩ := List.any_eq_true.mp hbel
              rw [Bool.and_eq_true] at hb2
              have hv2eq : v'' = v := huuid_inj v'' hv'' (eq_of_beq hb2.1)
              have hov : o.vote = v.id := by
                rw [← hv2eq]
                exact (eq_of_beq hb2.2).symm
              exact exists_pair_transport db.options _ hpairs v.id oid
                ⟨o, ho, hov, hid⟩

/-- C2: in every store reachable by the application's create-poll and
submit-vote operations, every response recorded for a poll selects distinct
option ids, each belonging to an option row of that poll, and their number lies
between 1 and the poll's max_selections. -/
theorem C2_response_invariant (db : DB) (h : Reachable db) :
    ∀ v ∈ db.votes, ∀ r ∈ db.responses, r.vote = v.uuid →
      r.selected_options.Nodup ∧ 1 ≤ r.selected_options.length ∧
      r.selected_options.length ≤ v.max_selections ∧
      ∀ oid ∈ r.selected_options, ∃ o ∈ db.options, o.vote = v.id ∧ o.id = oid := by
  have hInv : Inv db := by
    induction h with
    | init => exact Inv_init
    | step db0 db1 _ hs ih =>
      cases hs with
      | create u q maxSel raw voteOk optOk now hmax hu =>
        exact step_create_inv db0 u q now maxSel raw voteOk optOk hmax hu ih
      | vote key okV okO radioIdx checked respOk fOk pOk now =>
        exact step_vote_inv db0 key okV okO radioIdx checked respOk fOk pOk now ih
  exact hInv.2.2.2.2.2.2

/-- Witness for C2: after creating the Lunch? poll and submitting the radio
vote for Pizza starting from the empty store, the recorded response's selected
option id 2 is indeed a Pizza-poll option row. -/
theorem C2_witness :
    ∃ o ∈ (display_page_submit
        (render_create_submit initDB uDemo qLunch 1 [sPizza, sTacos] true
          (fun _ => true) tDemo).1
        uDemo true true 0 (fun _ => false) true (fun _ => true) (fun _ => true)
        tDemo).db.options,
      o.vote = 1 ∧ o.id = 2 := by
  have hr1 : Reachable (render_create_submit initDB uDemo qLunch 1
      [sPizza, sTacos] true (fun _ => true) tDemo).1 :=
    Reachable.step _ _ Reachable.init
      (Step.create initDB uDemo qLunch 1 [sPizza, sTacos] true (fun _ => true)
        tDemo (by decide) (by simp [initDB]))
  have hr2 : Reachable (display_page_submit
      (render_create_submit initDB uDemo qLunch 1 [sPizza, sTacos] true
        (fun _ => true) tDemo).1
      uDemo true true 0 (fun _ => false) true (fun _ => true) (fun _ => true)
      tDemo).db :=
    Reachable.step _ _ hr1
      (Step.vote _ uDemo true true 0 (fun _ => false) true (fun _ => true)
        (fun _ => true) tDemo)
  have h := C2_response_invariant _ hr2 ⟨1, uDemo, qLunch, 1, tDemo⟩ (by decide)
    ⟨4, uDemo, [2], tDemo⟩ (by decide) (by decide)
  exact h.2.2.2 2 (by decide)

end AnonymousVote
